import Mathlib

/-!
Shallow embedding of `src/functions/main.py` (the `transcribe_audio` cloud
function of the audio-to-text repository) and verification of the claimed
properties of its turn segmentation, transcript assembly, input filtering,
sample-rate lookup and error handling.

Word timestamps are modelled as rationals: the Python source converts the
service's `(seconds, nanos)` pairs via `seconds + nanos * 1e-9` and then only
copies the resulting values around, so a single exact rational field per
timestamp is a faithful model of the segmentation logic.
-/

namespace AudioToText

/-- One word of the recognition response's top alternative, as consumed by the
diarization loop: `word_info.speaker_tag`, `word_info.start_time`,
`word_info.end_time`. -/
structure WordInfo where
  speaker_tag : Int
  start_time : ℚ
  end_time : ℚ
deriving DecidableEq, Repr

/-- One alternative of a recognition result: `alternative.transcript` and
`alternative.words`. -/
structure SpeechAlternative where
  transcript : String
  words : List WordInfo
deriving DecidableEq, Repr

/-- One recognition result: `result.alternatives`. -/
structure SpeechResult where
  alternatives : List SpeechAlternative
deriving DecidableEq, Repr

/-- One entry of the `speaker_turns` output list built by the handler. -/
structure SpeakerTurn where
  speaker : Int
  start_time : ℚ
  end_time : ℚ
deriving DecidableEq, Repr

/-- The mutable scan state of the result-processing loop in
`transcribe_audio`: `transcript_parts`, `speaker_turns`, and the pair
`current_speaker` / `turn_start_time` (always assigned together in the
source, hence one `Option`), plus the last bound value of the inner loop
variable `word_info`, which the source reads after the inner loop ends. -/
structure ScanState where
  transcript_parts : List String
  speaker_turns : List SpeakerTurn
  current_speaker : Option (Int × ℚ)
  last_word : Option WordInfo
deriving DecidableEq, Repr

/-- Body of the inner `for word_info in result.alternatives[0].words` loop:
on a speaker change, close the previous turn (if any) at the new word's
start time and open a new turn at that same start time. -/
def processWord (s : ScanState) (w : WordInfo) : ScanState :=
  match s.current_speaker with
  | none =>
      { s with current_speaker := some (w.speaker_tag, w.start_time),
               last_word := some w }
  | some (cs, ts) =>
      if w.speaker_tag = cs then
        { s with last_word := some w }
      else
        { s with
          speaker_turns := s.speaker_turns ++ [⟨cs, ts, w.start_time⟩],
          current_speaker := some (w.speaker_tag, w.start_time),
          last_word := some w }

/-- Body of the outer `for result in response.results` loop: skip results
with no alternatives; otherwise append the top alternative's transcript,
scan its words, and then (still inside the outer loop, as in the source)
append the currently open turn, ending it at the last processed word's end
time. -/
def processResult (s : ScanState) (result : SpeechResult) : ScanState :=
  match result.alternatives with
  | [] => s
  | alt :: _ =>
      let s1 : ScanState :=
        { s with transcript_parts := s.transcript_parts ++ [alt.transcript] }
      let s2 := alt.words.foldl processWord s1
      match s2.current_speaker, s2.last_word with
      | some (cs, ts), some w =>
          { s2 with speaker_turns := s2.speaker_turns ++ [⟨cs, ts, w.end_time⟩] }
      | _, _ => s2

/-- Initial scan state: empty accumulators, `current_speaker = None`. -/
def initState : ScanState := ⟨[], [], none, none⟩

/-- The whole result-processing loop of `transcribe_audio`. -/
def processResponse (results : List SpeechResult) : ScanState :=
  results.foldl processResult initState

/-- `full_transcript = "\n".join(transcript_parts)`. -/
def full_transcript (results : List SpeechResult) : String :=
  String.intercalate "\n" (processResponse results).transcript_parts

/-- The `speaker_turns` list produced by the scan. -/
def speaker_turns (results : List SpeechResult) : List SpeakerTurn :=
  (processResponse results).speaker_turns

/-- All words of all results' top alternatives, in scan order (used to state
claims quantifying over "all words across all results' top alternatives"). -/
def top_words (results : List SpeechResult) : List WordInfo :=
  results.flatMap fun r =>
    match r.alternatives with
    | [] => []
    | a :: _ => a.words

/-- Python's `str.split(sep)` for a one-character separator, on the
character list of the string. -/
def pySplit (sep : Char) : List Char → List (List Char)
  | [] => [[]]
  | c :: rest =>
      if c = sep then
        [] :: pySplit sep rest
      else
        match pySplit sep rest with
        | [] => [[c]]
        | h :: t => (c :: h) :: t

/-- `file_name.split('.')[-1]`: the last piece of the split (the split is
never empty, so `[-1]` is total). -/
def extensionOf (name : String) : String :=
  ⟨(pySplit '.' name.toList).getLastD []⟩

/-- The module-level `SAMPLE_RATES` table. -/
def SAMPLE_RATES : List (String × List Nat) :=
  [("wav", [16000, 44100, 48000]),
   ("flac", [16000, 44100, 48000]),
   ("mp3", [44100, 48000]),
   ("ogg", [16000, 44100, 48000]),
   ("webm", [16000, 44100, 48000]),
   ("m4a", [44100, 48000])]

/-- Python's `str.lower()` as a character-wise ASCII case map (the table's
keys are pure ASCII, so this matches `str.lower()` on every relevant key). -/
def pyLower (s : String) : String :=
  ⟨s.toList.map Char.toLower⟩

/-- Python's `str.startswith(pre)` as a prefix test on character lists. -/
def pyStartsWith (s pre : String) : Bool :=
  pre.toList.isPrefixOf s.toList

/-- `SAMPLE_RATES.get(file_extension.lower(), [16000])`. -/
def get_sample_rate (file_extension : String) : List Nat :=
  (SAMPLE_RATES.lookup (pyLower file_extension)).getD [16000]

/-- Truthiness of `not file_name` for an optional string field (`None` and
the empty string are both falsy in Python). -/
def noFileName : Option String → Bool
  | none => true
  | some s => s == ""

/-- The `content_type and not content_type.startswith('audio/')` guard:
an absent OR empty content type is falsy in Python, so the conjunction
short-circuits and the handler proceeds; only a present, non-empty content
type that does not start with "audio/" is skipped. -/
def skipNonAudio : Option String → Bool
  | none => false
  | some ct => !(ct == "") && !(pyStartsWith ct "audio/")

/-- The fields of the storage event that `transcribe_audio` reads. -/
structure StorageEvent where
  bucket : String
  name : Option String
  content_type : Option String
deriving Repr

/-- The recognition response: `response.results`. -/
structure RecognizeResponse where
  results : List SpeechResult
deriving Repr

/-- Outcomes of the external collaborators for one invocation: the
long-running recognition call (including the bounded `result(timeout=300)`
wait) and the two storage uploads, each either succeeding or raising. -/
structure Env where
  recognize : Except String RecognizeResponse
  transcript_upload : Except String Unit
  turns_upload : Except String Unit

/-- One attempted `upload_from_string` call: the object key, the body, the
content type, and whether the upload succeeded. -/
structure WriteAttempt (β : Type) where
  key : String
  body : β
  content_type : String
  succeeded : Bool
deriving Repr

/-- Observable outcome of one invocation of the handler: whether it returned
normally or propagated an exception, whether the recognition service was
called, and which writes were attempted (the speaker-turns body is recorded
as the turn list itself; `json.dumps` is an injective external serializer). -/
structure InvocationResult where
  outcome : Except String Unit
  recognitionCalled : Bool
  transcriptWrite : Option (WriteAttempt String)
  turnsWrite : Option (WriteAttempt (List SpeakerTurn))
deriving Repr

/-- The `transcribe_audio` handler: input filtering, extension and
sample-rate lookup, recognition call, scan, and the two independently
guarded writes.  A `try` / `except` around an upload is modelled by
recording the attempt and continuing regardless of its outcome; an
exception anywhere else propagates as `.error`. -/
def transcribe_audio (env : Env) (event : StorageEvent) : InvocationResult :=
  let file_name := event.name.getD ""
  if noFileName event.name then
    ⟨.ok (), false, none, none⟩
  else if skipNonAudio event.content_type then
    ⟨.ok (), false, none, none⟩
  else
    let file_extension := extensionOf file_name
    let available_sample_rates := get_sample_rate file_extension
    if available_sample_rates.isEmpty then
      ⟨.ok (), false, none, none⟩
    else
      match env.recognize with
      | .error e => ⟨.error e, true, none, none⟩
      | .ok response =>
          let st := processResponse response.results
          let transcript := String.intercalate "\n" st.transcript_parts
          let transcript_file_name := file_name ++ ".txt"
          let tWrite : WriteAttempt String :=
            ⟨transcript_file_name, transcript, "text/plain",
             match env.transcript_upload with
             | .ok _ => true
             | .error _ => false⟩
          let timestamp_file_name := file_name ++ "_speaker_turns.json"
          let jWrite : WriteAttempt (List SpeakerTurn) :=
            ⟨timestamp_file_name, st.speaker_turns, "application/json",
             match env.turns_upload with
             | .ok _ => true
             | .error _ => false⟩
          ⟨.ok (), true, some tWrite, some jWrite⟩

/-! ### Helper lemmas -/

/-- Every value the sample-rate table can return is non-empty. -/
theorem get_sample_rate_ne_nil (ext : String) : get_sample_rate ext ≠ [] := by
  unfold get_sample_rate SAMPLE_RATES
  simp only [List.lookup]
  repeat' split
  all_goals simp_all

/-- A lookup miss in the table yields the `[16000]` fallback. -/
theorem get_sample_rate_of_miss (ext : String)
    (h : SAMPLE_RATES.lookup (pyLower ext) = none) :
    get_sample_rate ext = [16000] := by
  unfold get_sample_rate
  rw [h]
  rfl

/-! ### Error handling and input filtering (claims C3-C6) -/

/-- C5: a notification whose object name is absent or empty makes the
handler return normally with no recognition call and no writes. -/
theorem C5_empty_name (env : Env) (event : StorageEvent)
    (h : event.name = none ∨ event.name = some "") :
    transcribe_audio env event = ⟨.ok (), false, none, none⟩ := by
  have hb : noFileName event.name = true := by
    rcases h with h | h <;> simp [h, noFileName]
  unfold transcribe_audio
  simp [hb]

/-- C5 witness at a concrete event. -/
theorem C5_empty_name_witness :
    transcribe_audio ⟨.ok ⟨[]⟩, .ok (), .ok ()⟩ ⟨"b", some "", some "audio/wav"⟩
      = ⟨.ok (), false, none, none⟩ :=
  C5_empty_name _ _ (Or.inr rfl)

/-- C6 counterexample: a present but EMPTY content type does not begin
with "audio/", yet the handler proceeds to the recognition call (Python's
`content_type and ...` guard short-circuits on the falsy empty string), so
the claimed "returns with no recognition call" is false at this input. -/
theorem C6_counterexample :
    pyStartsWith "" "audio/" = false ∧
    (transcribe_audio ⟨.ok ⟨[]⟩, .ok (), .ok ()⟩
        ⟨"b", some "a.wav", some ""⟩).recognitionCalled = true :=
  ⟨by decide, by decide⟩

/-- C6 (amended): a present, NON-EMPTY content type that does not start
with "audio/" makes the handler return with no recognition call and no
writes; an absent content type, or a present but empty one (falsy in
Python), proceeds past the input filter (the recognition call happens
whenever the name filter also passes). -/
theorem C6_content_type_filter_amended (env : Env) (event : StorageEvent) :
    (∀ ct, event.content_type = some ct → ct ≠ "" →
      pyStartsWith ct "audio/" = false →
      transcribe_audio env event = ⟨.ok (), false, none, none⟩) ∧
    (event.content_type = none → noFileName event.name = false →
      (transcribe_audio env event).recognitionCalled = true) ∧
    (event.content_type = some "" → noFileName event.name = false →
      (transcribe_audio env event).recognitionCalled = true) := by
  refine ⟨?_, ?_, ?_⟩
  · intro ct hct hne hpre
    have hskip : skipNonAudio event.content_type = true := by
      simp [skipNonAudio, hct, hne, hpre]
    unfold transcribe_audio
    by_cases hn : noFileName event.name
    · simp [hn]
    · simp [hn, hskip]
  · intro hct hn
    have hskip : skipNonAudio event.content_type = false := by
      simp [skipNonAudio, hct]
    have hne := get_sample_rate_ne_nil (extensionOf (event.name.getD ""))
    unfold transcribe_audio
    rcases env with ⟨rec, tu, ju⟩
    cases rec <;> simp [hn, hskip, List.isEmpty_iff, hne]
  · intro hct hn
    have hskip : skipNonAudio event.content_type = false := by
      simp [skipNonAudio, hct]
    have hne := get_sample_rate_ne_nil (extensionOf (event.name.getD ""))
    unfold transcribe_audio
    rcases env with ⟨rec, tu, ju⟩
    cases rec <;> simp [hn, hskip, List.isEmpty_iff, hne]

/-- C6 witness: rejected non-audio content type, accepted absent content
type, and accepted empty content type, at concrete events. -/
theorem C6_content_type_filter_amended_witness :
    transcribe_audio ⟨.ok ⟨[]⟩, .ok (), .ok ()⟩ ⟨"b", some "a.wav", some "text/plain"⟩
      = ⟨.ok (), false, none, none⟩ ∧
    (transcribe_audio ⟨.ok ⟨[]⟩, .ok (), .ok ()⟩
      ⟨"b", some "a.wav", none⟩).recognitionCalled = true ∧
    (transcribe_audio ⟨.ok ⟨[]⟩, .ok (), .ok ()⟩
      ⟨"b", some "a.wav", some ""⟩).recognitionCalled = true :=
  ⟨(C6_content_type_filter_amended ⟨.ok ⟨[]⟩, .ok (), .ok ()⟩
      ⟨"b", some "a.wav", some "text/plain"⟩).1 "text/plain" rfl (by decide) (by decide),
   (C6_content_type_filter_amended ⟨.ok ⟨[]⟩, .ok (), .ok ()⟩
      ⟨"b", some "a.wav", none⟩).2.1 rfl (by decide),
   (C6_content_type_filter_amended ⟨.ok ⟨[]⟩, .ok (), .ok ()⟩
      ⟨"b", some "a.wav", some ""⟩).2.2 rfl (by decide)⟩

/-- C3: when the recognition call (or the bounded wait on its result)
raises, the exception propagates uncaught out of the handler and neither
output object is written. -/
theorem C3_recognition_failure (env : Env) (event : StorageEvent) (e : String)
    (herr : env.recognize = .error e)
    (hcalled : (transcribe_audio env event).recognitionCalled = true) :
    (transcribe_audio env event).outcome = .error e ∧
    (transcribe_audio env event).transcriptWrite = none ∧
    (transcribe_audio env event).turnsWrite = none := by
  unfold transcribe_audio at *
  by_cases h1 : noFileName event.name
  · simp [h1] at hcalled
  by_cases h2 : skipNonAudio event.content_type
  · simp [h1, h2] at hcalled
  by_cases h3 : (get_sample_rate (extensionOf (event.name.getD ""))).isEmpty
  · simp [h1, h2, h3] at hcalled
  · simp [h1, h2, h3, herr]

/-- C3 witness: a failing recognition call on an accepted audio upload. -/
theorem C3_recognition_failure_witness :
    (transcribe_audio ⟨.error "timeout", .ok (), .ok ()⟩
        ⟨"b", some "a.wav", some "audio/wav"⟩).outcome = .error "timeout" ∧
    (transcribe_audio ⟨.error "timeout", .ok (), .ok ()⟩
        ⟨"b", some "a.wav", some "audio/wav"⟩).transcriptWrite = none ∧
    (transcribe_audio ⟨.error "timeout", .ok (), .ok ()⟩
        ⟨"b", some "a.wav", some "audio/wav"⟩).turnsWrite = none :=
  C3_recognition_failure ⟨.error "timeout", .ok (), .ok ()⟩
    ⟨"b", some "a.wav", some "audio/wav"⟩ "timeout" rfl (by decide)

/-- C4: once the handler reaches the result-writing stage, both writes are
attempted and the invocation returns normally, whatever the outcome of
either upload (each upload failure is caught and does not suppress the
other attempt). -/
theorem C4_independent_writes (env : Env) (event : StorageEvent)
    (resp : RecognizeResponse) (hok : env.recognize = .ok resp)
    (hcalled : (transcribe_audio env event).recognitionCalled = true) :
    (transcribe_audio env event).outcome = .ok () ∧
    ((transcribe_audio env event).transcriptWrite).isSome = true ∧
    ((transcribe_audio env event).turnsWrite).isSome = true := by
  unfold transcribe_audio at *
  by_cases h1 : noFileName event.name
  · simp [h1] at hcalled
  by_cases h2 : skipNonAudio event.content_type
  · simp [h1, h2] at hcalled
  by_cases h3 : (get_sample_rate (extensionOf (event.name.getD ""))).isEmpty
  · simp [h1, h2, h3] at hcalled
  · simp [h1, h2, h3, hok]

/-- C4 witness: both uploads fail, yet both are attempted and the
invocation still returns normally. -/
theorem C4_independent_writes_witness :
    (transcribe_audio ⟨.ok ⟨[]⟩, .error "w1", .error "w2"⟩
        ⟨"b", some "a.wav", some "audio/wav"⟩).outcome = .ok () ∧
    ((transcribe_audio ⟨.ok ⟨[]⟩, .error "w1", .error "w2"⟩
        ⟨"b", some "a.wav", some "audio/wav"⟩).transcriptWrite).isSome = true ∧
    ((transcribe_audio ⟨.ok ⟨[]⟩, .error "w1", .error "w2"⟩
        ⟨"b", some "a.wav", some "audio/wav"⟩).turnsWrite).isSome = true :=
  C4_independent_writes ⟨.ok ⟨[]⟩, .error "w1", .error "w2"⟩
    ⟨"b", some "a.wav", some "audio/wav"⟩ ⟨[]⟩ rfl (by decide)

/-! ### Sample-rate lookup (claim C8) -/

/-- C8: `get_sample_rate` never returns an empty list (unknown extensions
get the `[16000]` fallback), so the handler's "no valid sample rate"
rejection branch is unreachable: once the name and content-type filters
pass, the recognition call always happens. -/
theorem C8_sample_rate_fallback (ext : String) (env : Env) (event : StorageEvent)
    (hname : noFileName event.name = false)
    (hct : skipNonAudio event.content_type = false) :
    get_sample_rate ext ≠ [] ∧
    (SAMPLE_RATES.lookup (pyLower ext) = none → get_sample_rate ext = [16000]) ∧
    (transcribe_audio env event).recognitionCalled = true := by
  refine ⟨get_sample_rate_ne_nil ext, get_sample_rate_of_miss ext, ?_⟩
  have hne := get_sample_rate_ne_nil (extensionOf (event.name.getD ""))
  unfold transcribe_audio
  rcases env with ⟨rec, tu, ju⟩
  cases rec <;> simp [hname, hct, List.isEmpty_iff, hne]

/-- C8 witness: the unknown extension "xyz" and a passing event. -/
theorem C8_sample_rate_fallback_witness :
    get_sample_rate "xyz" ≠ [] ∧
    get_sample_rate "xyz" = [16000] ∧
    (transcribe_audio ⟨.ok ⟨[]⟩, .ok (), .ok ()⟩
        ⟨"b", some "a.xyz", some "audio/xyz"⟩).recognitionCalled = true := by
  have h := C8_sample_rate_fallback "xyz" ⟨.ok ⟨[]⟩, .ok (), .ok ()⟩
    ⟨"b", some "a.xyz", some "audio/xyz"⟩ (by decide) (by decide)
  exact ⟨h.1, h.2.1 (by decide), h.2.2⟩

/-! ### Transcript assembly (claim C9) -/

/-- The word loop never touches `transcript_parts`. -/
theorem processWord_transcript (s : ScanState) (w : WordInfo) :
    (processWord s w).transcript_parts = s.transcript_parts := by
  unfold processWord
  rcases s with ⟨tp, st, cur, lw⟩
  cases cur with
  | none => rfl
  | some p =>
      rcases p with ⟨cs, ts⟩
      by_cases h : w.speaker_tag = cs <;> simp [h]

/-- Folding the word loop never touches `transcript_parts`. -/
theorem foldl_processWord_transcript (ws : List WordInfo) (s : ScanState) :
    (ws.foldl processWord s).transcript_parts = s.transcript_parts := by
  induction ws generalizing s with
  | nil => rfl
  | cons w ws ih => rw [List.foldl_cons, ih, processWord_transcript]

/-- Each result contributes its top alternative's transcript (when it has
one) to `transcript_parts`, and nothing else. -/
theorem processResult_transcript (s : ScanState) (r : SpeechResult) :
    (processResult s r).transcript_parts =
      s.transcript_parts ++
        (r.alternatives.head?.map SpeechAlternative.transcript).toList := by
  rcases r with ⟨alts⟩
  cases alts with
  | nil => simp [processResult]
  | cons alt rest =>
      unfold processResult
      simp only []
      have ht := foldl_processWord_transcript alt.words
        { s with transcript_parts := s.transcript_parts ++ [alt.transcript] }
      rcases hc : (alt.words.foldl processWord
          { s with transcript_parts := s.transcript_parts ++ [alt.transcript] }).current_speaker
        with _ | ⟨cs, ts⟩ <;>
      rcases hl : (alt.words.foldl processWord
          { s with transcript_parts := s.transcript_parts ++ [alt.transcript] }).last_word
        with _ | w <;>
      simp_all

/-- The full scan collects exactly the (present) top-alternative
transcripts, in order. -/
theorem foldl_processResult_transcript (rs : List SpeechResult) (s : ScanState) :
    (rs.foldl processResult s).transcript_parts =
      s.transcript_parts ++
        rs.filterMap (fun r => r.alternatives.head?.map SpeechAlternative.transcript) := by
  induction rs generalizing s with
  | nil => simp
  | cons r rs ih =>
      rw [List.foldl_cons, ih, processResult_transcript]
      rcases h : r.alternatives.head? with _ | alt <;> simp [h]

/-- The transcript as the spec words it: the top alternatives' transcript
strings of the results that have one, joined with the newline character. -/
def spec_transcript (results : List SpeechResult) : String :=
  String.intercalate "\n"
    (results.filterMap fun r => r.alternatives.head?.map SpeechAlternative.transcript)

/-- C9: the written transcript equals the newline join of the results' top
transcripts (one part per result with at least one alternative); in
particular "hello" and "world" produce "hello\nworld", and the transcript
object's body is exactly `full_transcript` of the response. -/
theorem C9_transcript_join (results : List SpeechResult) (env : Env)
    (event : StorageEvent) (resp : RecognizeResponse)
    (hok : env.recognize = .ok resp)
    (hcalled : (transcribe_audio env event).recognitionCalled = true) :
    full_transcript results = spec_transcript results ∧
    full_transcript [⟨[⟨"hello", []⟩]⟩, ⟨[⟨"world", []⟩]⟩] = "hello\nworld" ∧
    ∃ a, (transcribe_audio env event).transcriptWrite = some a ∧
         a.body = full_transcript resp.results := by
  refine ⟨?_, by rfl, ?_⟩
  · unfold full_transcript spec_transcript processResponse
    rw [foldl_processResult_transcript]
    rfl
  · unfold transcribe_audio at *
    by_cases h1 : noFileName event.name
    · simp [h1] at hcalled
    by_cases h2 : skipNonAudio event.content_type
    · simp [h1, h2] at hcalled
    by_cases h3 : (get_sample_rate (extensionOf (event.name.getD ""))).isEmpty
    · simp [h1, h2, h3] at hcalled
    · simp only [h1, h2, h3, hok, Bool.false_eq_true, if_false, if_neg]
      exact ⟨_, rfl, rfl⟩

/-- C9 witness: a concrete accepted invocation with the hello/world
response. -/
theorem C9_transcript_join_witness :
    full_transcript [⟨[⟨"hello", []⟩]⟩] = spec_transcript [⟨[⟨"hello", []⟩]⟩] ∧
    full_transcript [⟨[⟨"hello", []⟩]⟩, ⟨[⟨"world", []⟩]⟩] = "hello\nworld" ∧
    ∃ a, (transcribe_audio
        ⟨.ok ⟨[⟨[⟨"hello", []⟩]⟩, ⟨[⟨"world", []⟩]⟩]⟩, .ok (), .ok ()⟩
        ⟨"b", some "a.wav", some "audio/wav"⟩).transcriptWrite = some a ∧
         a.body = full_transcript [⟨[⟨"hello", []⟩]⟩, ⟨[⟨"world", []⟩]⟩] := by
  have h := C9_transcript_join [⟨[⟨"hello", []⟩]⟩]
    ⟨.ok ⟨[⟨[⟨"hello", []⟩]⟩, ⟨[⟨"world", []⟩]⟩]⟩, .ok (), .ok ()⟩
    ⟨"b", some "a.wav", some "audio/wav"⟩
    ⟨[⟨[⟨"hello", []⟩]⟩, ⟨[⟨"world", []⟩]⟩]⟩ rfl (by decide)
  exact h

/-! ### Turn segmentation (claims C1, C2, C10) -/

/-- Two adjacent turns are contiguous when the first ends exactly where the
second starts. -/
def Contig (a b : SpeakerTurn) : Prop := a.end_time = b.start_time

/-- Invariant of the word scan: the accumulated turns are pairwise
contiguous, the open turn (if any) starts exactly where the last emitted
turn ends, and no turn has been emitted while no turn was ever opened. -/
structure SegInv (s : ScanState) : Prop where
  chain : s.speaker_turns.Chain' Contig
  link : ∀ cs ts, s.current_speaker = some (cs, ts) →
      s.speaker_turns = [] ∨
        ∃ l, s.speaker_turns.getLast? = some l ∧ l.end_time = ts
  empty_of_none : s.current_speaker = none → s.speaker_turns = []

/-- Appending a turn that closes the open turn keeps the chain contiguous,
whatever end time it is given. -/
theorem chain_append_final (s : ScanState) (h : SegInv s) (cs : Int) (ts e : ℚ)
    (hcur : s.current_speaker = some (cs, ts)) :
    (s.speaker_turns ++ [(⟨cs, ts, e⟩ : SpeakerTurn)]).Chain' Contig := by
  rw [List.chain'_append]
  refine ⟨h.chain, List.chain'_singleton (⟨cs, ts, e⟩ : SpeakerTurn), ?_⟩
  intro x hx y hy
  rcases h.link cs ts hcur with hnil | ⟨l, hl, hle⟩
  · simp [hnil] at hx
  · simp only [hl, Option.mem_def, Option.some.injEq] at hx
    simp only [List.head?_cons, Option.mem_def, Option.some.injEq] at hy
    subst hx
    subst hy
    exact hle

/-- One step of the word loop preserves the invariant. -/
theorem segInv_processWord (s : ScanState) (w : WordInfo) (h : SegInv s) :
    SegInv (processWord s w) := by
  rcases s with ⟨tp, turns, cur, lw⟩
  cases cur with
  | none =>
      have hnil : turns = [] := h.empty_of_none rfl
      subst hnil
      exact ⟨List.chain'_nil, fun cs ts _ => Or.inl rfl, fun hx => by simp [processWord] at hx⟩
  | some p =>
      rcases p with ⟨cs, ts⟩
      by_cases he : w.speaker_tag = cs
      · have : processWord ⟨tp, turns, some (cs, ts), lw⟩ w =
            { transcript_parts := tp, speaker_turns := turns,
              current_speaker := some (cs, ts), last_word := some w } := by
          simp [processWord, he]
        rw [this]
        exact ⟨h.chain, fun cs' ts' hc => h.link cs' ts' hc, by simp⟩
      · have hst : processWord ⟨tp, turns, some (cs, ts), lw⟩ w =
            { transcript_parts := tp,
              speaker_turns := turns ++ [⟨cs, ts, w.start_time⟩],
              current_speaker := some (w.speaker_tag, w.start_time),
              last_word := some w } := by
          simp [processWord, he]
        rw [hst]
        refine ⟨?_, ?_, by simp⟩
        · exact chain_append_final ⟨tp, turns, some (cs, ts), lw⟩ h cs ts _ rfl
        · intro cs' ts' hc
          simp only [Option.some.injEq, Prod.mk.injEq] at hc
          refine Or.inr ⟨⟨cs, ts, w.start_time⟩, List.getLast?_concat _, hc.2⟩

/-- The whole word loop preserves the invariant. -/
theorem segInv_foldl (ws : List WordInfo) (s : ScanState) (h : SegInv s) :
    SegInv (ws.foldl processWord s) := by
  induction ws generalizing s with
  | nil => exact h
  | cons w ws ih => exact ih _ (segInv_processWord s w h)

/-- Scanning one result from a state with no open turn and no emitted
turns yields a contiguous turn sequence, whatever the state's other
fields. -/
theorem processResult_chain_of_start (s : ScanState) (alt : SpeechAlternative)
    (rest : List SpeechAlternative)
    (hcur : s.current_speaker = none) (hturns : s.speaker_turns = []) :
    ((processResult s ⟨alt :: rest⟩).speaker_turns).Chain' Contig := by
  unfold processResult
  simp only []
  have h1 : SegInv { s with
      transcript_parts := s.transcript_parts ++ [alt.transcript] } := by
    refine ⟨?_, ?_, fun _ => hturns⟩
    · simp [hturns]
    · intro cs ts hc
      simp [hcur] at hc
  have h2 := segInv_foldl alt.words _ h1
  rcases hc : (alt.words.foldl processWord
      { s with
        transcript_parts := s.transcript_parts ++ [alt.transcript] }).current_speaker
    with _ | ⟨cs, ts⟩ <;>
  rcases hl : (alt.words.foldl processWord
      { s with
        transcript_parts := s.transcript_parts ++ [alt.transcript] }).last_word
    with _ | w <;>
  simp only [hc, hl]
  · exact h2.chain
  · exact h2.chain
  · exact h2.chain
  · exact chain_append_final _ h2 cs ts _ hc

/-- A result with an empty alternatives list is skipped entirely. -/
theorem processResult_empty_alts (s : ScanState) (r : SpeechResult)
    (h : r.alternatives = []) : processResult s r = s := by
  rcases r with ⟨alts⟩
  cases alts with
  | nil => rfl
  | cons a l => simp at h

/-- Scanning a suffix of results that all have empty alternatives lists
changes nothing. -/
theorem foldl_empty_alts (rs : List SpeechResult) (s : ScanState)
    (h : ∀ r ∈ rs, r.alternatives = []) :
    rs.foldl processResult s = s := by
  induction rs generalizing s with
  | nil => rfl
  | cons r rs ih =>
      rw [List.foldl_cons, processResult_empty_alts s r (h r (List.mem_cons_self _ _))]
      exact ih s fun r' hr' => h r' (List.mem_cons_of_mem _ hr')

/-- A result whose top alternative (if any) has no words neither opens a
turn nor emits one while no turn is open. -/
theorem processResult_no_words (s : ScanState) (r : SpeechResult)
    (hcur : s.current_speaker = none)
    (hw : ∀ a ∈ r.alternatives.head?, a.words = ([] : List WordInfo)) :
    (processResult s r).current_speaker = none ∧
    (processResult s r).speaker_turns = s.speaker_turns := by
  rcases r with ⟨alts⟩
  cases alts with
  | nil => exact ⟨hcur, rfl⟩
  | cons alt rest =>
      have haw : alt.words = [] := hw alt (by simp)
      unfold processResult
      simp only [haw, List.foldl_nil]
      simp [hcur]

/-- Scanning a prefix of word-less results keeps no turn open and emits
nothing. -/
theorem foldl_no_words (rs : List SpeechResult) (s : ScanState)
    (hcur : s.current_speaker = none)
    (h : ∀ r ∈ rs, ∀ a ∈ r.alternatives.head?, a.words = ([] : List WordInfo)) :
    (rs.foldl processResult s).current_speaker = none ∧
    (rs.foldl processResult s).speaker_turns = s.speaker_turns := by
  induction rs generalizing s with
  | nil => exact ⟨hcur, rfl⟩
  | cons r rs ih =>
      rw [List.foldl_cons]
      have hr := processResult_no_words s r hcur (h r (List.mem_cons_self _ _))
      have hrec := ih (processResult s r) hr.1
        (fun r' hr' => h r' (List.mem_cons_of_mem _ hr'))
      exact ⟨hrec.1, hrec.2.trans hr.2⟩

/-- The response on which claim C10 fails: all words lie in the FIRST
result's top alternative (the second result's top alternative has zero
words), yet the trailing wordless alternative makes the scan re-emit the
final turn through the stale `word_info`. -/
def c10FailingResults : List SpeechResult :=
  [⟨[⟨"a", [⟨1, 0, 1⟩, ⟨2, 1, 2⟩]⟩]⟩, ⟨[⟨"b", []⟩]⟩]

/-- C10 counterexample: the words of `c10FailingResults` all lie in a
single result's top alternative and are sorted, but the emitted turns are
[{1,0,1},{2,1,2},{2,1,2}], whose second turn ends at 2 while the third
starts at 1: the sequence is NOT contiguous. -/
theorem C10_counterexample :
    top_words c10FailingResults = [⟨1, 0, 1⟩, ⟨2, 1, 2⟩] ∧
    List.Chain' (fun v w => v.start_time ≤ w.start_time) (top_words c10FailingResults) ∧
    speaker_turns c10FailingResults = [⟨1, 0, 1⟩, ⟨2, 1, 2⟩, ⟨2, 1, 2⟩] ∧
    ¬ (speaker_turns c10FailingResults).Chain' Contig := by
  refine ⟨rfl, ?_, rfl, ?_⟩
  · rw [show top_words c10FailingResults
        = [(⟨1, 0, 1⟩ : WordInfo), ⟨2, 1, 2⟩] from rfl]
    norm_num [List.chain'_cons, List.chain'_singleton]
  · rw [show speaker_turns c10FailingResults
        = [(⟨1, 0, 1⟩ : SpeakerTurn), ⟨2, 1, 2⟩, ⟨2, 1, 2⟩] from rfl]
    norm_num [List.chain'_cons, Contig]

/-- C10 (amended): for a response whose words all lie in a single result's
top alternative with non-decreasing word timestamps, AND in which every
result after that one has an empty alternatives list (a later result with
a word-less alternative re-emits the final turn and breaks contiguity),
the emitted turn sequence is contiguous: every turn except the last ends
exactly where the next turn starts.  Results before the word-bearing one
may have (word-less) alternatives: they are harmless. -/
theorem C10_turns_contiguous_amended (pre post : List SpeechResult)
    (alt : SpeechAlternative) (rest : List SpeechAlternative)
    (hpre : ∀ r ∈ pre, ∀ a ∈ r.alternatives.head?, a.words = ([] : List WordInfo))
    (hpost : ∀ r ∈ post, r.alternatives = [])
    (hsorted : alt.words.Chain' fun v w => v.start_time ≤ w.start_time) :
    (speaker_turns (pre ++ ⟨alt :: rest⟩ :: post)).Chain' Contig := by
  unfold speaker_turns processResponse
  rw [List.foldl_append, List.foldl_cons, foldl_empty_alts post _ hpost]
  have hp := foldl_no_words pre initState rfl hpre
  exact processResult_chain_of_start _ alt rest hp.1 (hp.2.trans rfl)

/-- C10 witness: a word-less leading result, a sorted three-speaker word
sequence, and an empty-alternatives trailing result. -/
theorem C10_turns_contiguous_amended_witness :
    (∀ r ∈ [(⟨[⟨"p", []⟩]⟩ : SpeechResult)],
      ∀ a ∈ r.alternatives.head?, a.words = ([] : List WordInfo)) ∧
    (∀ r ∈ [(⟨[]⟩ : SpeechResult)], r.alternatives = []) ∧
    (List.Chain' (fun v w => v.start_time ≤ w.start_time)
      [(⟨1, 0, 1⟩ : WordInfo), ⟨2, 1, 2⟩, ⟨1, 2, 3⟩]) ∧
    (speaker_turns ([⟨[⟨"p", []⟩]⟩] ++
        ⟨[⟨"w", [⟨1, 0, 1⟩, ⟨2, 1, 2⟩, ⟨1, 2, 3⟩]⟩]⟩ :: [⟨[]⟩])).Chain' Contig :=
  ⟨by simp, by simp,
   by norm_num [List.chain'_cons, List.chain'_singleton],
   C10_turns_contiguous_amended [⟨[⟨"p", []⟩]⟩] [⟨[]⟩]
     ⟨"w", [⟨1, 0, 1⟩, ⟨2, 1, 2⟩, ⟨1, 2, 3⟩]⟩ []
     (by simp) (by simp)
     (by norm_num [List.chain'_cons, List.chain'_singleton])⟩

/-- C2: the spec's four-word, two-speaker example: mid-scan boundaries use
the boundary word's start time, the final turn uses the last word's end
time. -/
theorem C2_segmentation_example :
    speaker_turns [⟨[⟨"t", [⟨1, 0, 1/2⟩, ⟨1, 1/2, 1⟩, ⟨2, 1, 3/2⟩, ⟨1, 3/2, 2⟩]⟩]⟩]
      = [⟨1, 0, 1⟩, ⟨2, 1, 3/2⟩, ⟨1, 3/2, 2⟩] := rfl

/-- The input on which the code contradicts claim C1: two results, each
with a one-word top alternative spoken by speaker 1. -/
def oneWordResult : SpeechResult := ⟨[⟨"hi", [⟨1, 0, 1⟩]⟩]⟩

/-- C1: code behavior at the failing input.  All words across both
results' top alternatives carry speaker tag 1, yet the scan emits TWO
turns, because the source's "add the last speaker turn at the end of the
file" append sits inside the per-result loop and fires once per result
with alternatives, not once at the end of the whole scan. -/
theorem C1_final_turn_per_result :
    (∀ w ∈ top_words [oneWordResult, oneWordResult], w.speaker_tag = 1) ∧
    top_words [oneWordResult, oneWordResult] ≠ [] ∧
    speaker_turns [oneWordResult, oneWordResult] = [⟨1, 0, 1⟩, ⟨1, 0, 1⟩] := by
  refine ⟨by decide, by decide, rfl⟩

/-! ### Extension extraction (claim C7) -/

/-- `str.split(sep)` never returns an empty list. -/
theorem pySplit_ne_nil (sep : Char) (cs : List Char) : pySplit sep cs ≠ [] := by
  induction cs with
  | nil => simp [pySplit]
  | cons c rest ih =>
      by_cases hc : c = sep
      · simp [pySplit, hc]
      · simp only [pySplit, if_neg hc]
        rcases hr : pySplit sep rest with _ | ⟨h, t⟩ <;> simp

/-- Splitting a string that does not contain the separator returns the
whole string as the single piece. -/
theorem pySplit_no_sep (sep : Char) (cs : List Char) (h : sep ∉ cs) :
    pySplit sep cs = [cs] := by
  induction cs with
  | nil => rfl
  | cons c rest ih =>
      have hc : ¬ c = sep := fun he => h (by simp [he])
      have hr : pySplit sep rest = [rest] :=
        ih fun hm => h (List.mem_cons_of_mem _ hm)
      simp [pySplit, hc, hr]

/-- Unfolding `pySplit` at a separator character. -/
theorem pySplit_cons_sep (sep c : Char) (rest : List Char) (hc : c = sep) :
    pySplit sep (c :: rest) = [] :: pySplit sep rest := by
  simp [pySplit, hc]

/-- Unfolding `pySplit` at a non-separator character. -/
theorem pySplit_cons_ne (sep c : Char) (rest : List Char) (hc : ¬ c = sep)
    (h : List Char) (t : List (List Char)) (hr : pySplit sep rest = h :: t) :
    pySplit sep (c :: rest) = (c :: h) :: t := by
  simp [pySplit, hc, hr]

/-- Splitting a string that contains the separator yields at least two
pieces. -/
theorem two_le_length_pySplit (sep : Char) (a b : List Char) :
    2 ≤ (pySplit sep (a ++ sep :: b)).length := by
  induction a with
  | nil =>
      rw [List.nil_append, pySplit_cons_sep sep sep b rfl, List.length_cons]
      have h1 : 0 < (pySplit sep b).length :=
        List.length_pos.mpr (pySplit_ne_nil sep b)
      omega
  | cons c a ih =>
      rw [List.cons_append]
      by_cases hc : c = sep
      · rw [pySplit_cons_sep sep c (a ++ sep :: b) hc, List.length_cons]
        have h1 : 0 < (pySplit sep (a ++ sep :: b)).length :=
          List.length_pos.mpr (pySplit_ne_nil sep _)
        omega
      · rcases hr : pySplit sep (a ++ sep :: b) with _ | ⟨h, t⟩
        · exact absurd hr (pySplit_ne_nil sep _)
        · rw [pySplit_cons_ne sep c (a ++ sep :: b) hc h t hr, List.length_cons]
          rw [hr, List.length_cons] at ih
          omega

/-- `getLastD` of a non-empty list ignores the default. -/
theorem getLastD_of_ne_nil {α : Type} (l : List α) (hl : l ≠ []) (d e : α) :
    l.getLastD d = l.getLastD e := by
  rcases l with _ | ⟨a, l⟩
  · exact absurd rfl hl
  · rw [List.getLastD_cons, List.getLastD_cons]

/-- The last piece of a split only depends on the text after the last
separator occurrence. -/
theorem pySplit_getLastD_append (sep : Char) (a b : List Char) :
    (pySplit sep (a ++ sep :: b)).getLastD [] = (pySplit sep b).getLastD [] := by
  induction a with
  | nil =>
      rw [List.nil_append, pySplit_cons_sep sep sep b rfl, List.getLastD_cons]
  | cons c a ih =>
      rw [List.cons_append]
      by_cases hc : c = sep
      · rw [pySplit_cons_sep sep c (a ++ sep :: b) hc, List.getLastD_cons]
        exact ih
      · rcases hr : pySplit sep (a ++ sep :: b) with _ | ⟨h, t⟩
        · exact absurd hr (pySplit_ne_nil sep _)
        · have hlen := two_le_length_pySplit sep a b
          rw [hr, List.length_cons] at hlen
          have ht : t ≠ [] := by
            rcases t with _ | ⟨x, t⟩
            · simp at hlen
            · simp
          rw [pySplit_cons_ne sep c (a ++ sep :: b) hc h t hr, List.getLastD_cons]
          rw [hr, List.getLastD_cons] at ih
          rw [getLastD_of_ne_nil t ht (c :: h) h]
          exact ih

/-- A name with no `.` yields itself as the extension (`split('.')[-1]` of
a dot-free string is the whole string). -/
theorem extensionOf_no_dot (name : String) (h : '.' ∉ name.toList) :
    extensionOf name = name := by
  unfold extensionOf
  rw [pySplit_no_sep '.' name.toList h]
  rcases name with ⟨d⟩
  rfl

/-- For a name of the form `stem ++ "." ++ ext` with a dot-free `ext`, the
extracted extension is exactly `ext` (the substring after the last `.`). -/
theorem extensionOf_append_dot (stem ext : String) (h : '.' ∉ ext.toList) :
    extensionOf (stem ++ "." ++ ext) = ext := by
  unfold extensionOf
  have hl : (stem ++ "." ++ ext).toList = stem.toList ++ '.' :: ext.toList := by
    show (stem ++ "." ++ ext).data = stem.data ++ '.' :: ext.data
    rw [String.data_append, String.data_append]
    have hdot : ("." : String).data = ['.'] := by decide
    rw [hdot]
    simp
  rw [hl, pySplit_getLastD_append, pySplit_no_sep '.' ext.toList h]
  rcases ext with ⟨de⟩
  rfl

/-- C7 counterexample: the object name "wav" contains no `.`, yet the
lookup key it produces is "wav" itself, which HITS the extension table
(`SAMPLE_RATES.lookup` returns the wav entry, not a miss). -/
theorem C7_counterexample :
    '.' ∉ "wav".toList ∧
    extensionOf "wav" = "wav" ∧
    SAMPLE_RATES.lookup (pyLower (extensionOf "wav")) = some [16000, 44100, 48000] := by
  refine ⟨by decide, by decide, by decide⟩

/-- C7 (amended): the extension used for the sample-rate lookup is the
substring after the last `.` when the name contains one; a name with no
`.` uses the WHOLE name as the lookup key, which is a miss only when the
lowercased name is not itself one of the table's extensions. -/
theorem C7_extension_extraction (stem ext name : String)
    (hext : '.' ∉ ext.toList) (hname : '.' ∉ name.toList) :
    extensionOf (stem ++ "." ++ ext) = ext ∧
    extensionOf name = name :=
  ⟨extensionOf_append_dot stem ext hext, extensionOf_no_dot name hname⟩

/-- C7 witness: the name "a.flac" and the dot-free name "talk". -/
theorem C7_extension_extraction_witness :
    extensionOf ("a" ++ "." ++ "flac") = "flac" ∧
    extensionOf "talk" = "talk" :=
  C7_extension_extraction "a" "flac" "talk" (by decide) (by decide)

end AudioToText
